import Mathlib

/-!
# RootSense Node.js SDK — verification of the buffering/batching/retry pipeline

A shallow embedding of the SDK's core data paths:

* `BatchSender` (`src/transport/batch-sender.ts`): the pending-event buffer,
  the single-flight `flush`, `chunkArray` partitioning, `addEvent`'s
  capacity-triggered flush, `sendWithRetry`'s backoff loop, and `shutdown`.
* `ErrorTracker.addBreadcrumb` (`src/tracking/error-tracker.ts`): the
  100-entry breadcrumb window.
* The PII sanitizer (`sanitizeValue` / `sanitizeObject` / `sanitizeHeaders`):
  JSON-like values, blocked-key redaction, and the email / card / SSN
  string patterns, modelled by an explicit backtracking matcher for the
  anchored regular expressions the source uses.
* `generateFingerprint` (`src/utils/config.ts`): the colon-joined input
  string, SHA-256 (the behaviour of Node's `createHash('sha256')`,
  implemented here from the FIPS 180-4 algorithm so it is executable),
  hex digest, first 16 characters.

Events are opaque payloads, so the sender and breadcrumb models are
polymorphic in the event type.  Asynchrony is modelled sequentially: each
entry point is an atomic state transition on the sender state, and the
chunks a flush decides to POST are returned as data rather than performed;
the in-flight window of a flush is exposed by splitting it into
`flushBegin` (guard, snapshot, buffer swap) and `flushEnd` (clearing the
single-flight flag), matching the `isFlushing` discipline of the source.
-/

namespace RootSense

/-- The configuration fields of `RootSenseConfig` that the buffering and
delivery pipeline reads (`src/utils/config.ts`). -/
structure Config where
  maxBufferSize : Nat
  batchSize : Nat
  retryAttempts : Nat
  retryDelay : Nat
  enableMetrics : Bool
deriving Repr, DecidableEq

/-- `DEFAULT_CONFIG` of `src/utils/config.ts`, restricted to the fields of
`Config`. -/
def defaultConfig : Config :=
  { maxBufferSize := 1000
    batchSize := 100
    retryAttempts := 3
    retryDelay := 1000
    enableMetrics := true }

/-- The mutable state of a `BatchSender`: the pending-event buffer, the
single-flight `isFlushing` guard, and whether the periodic flush timer is
armed.  `α` is the event payload type. -/
structure SenderState (α : Type) where
  buffer : List α
  isFlushing : Bool
  timerActive : Bool
deriving Repr, DecidableEq

/-- `chunkArray` of `batch-sender.ts`: partition `array` into consecutive
slices of `size` elements, the last possibly shorter.  The source's
`for (let i = 0; i < array.length; i += size)` loop does not terminate when
`size = 0` and the array is non-empty; that case is unreachable for a valid
configuration and is mapped to `[]` here. -/
def chunkArray {α : Type} (array : List α) (size : Nat) : List (List α) :=
  if h : size = 0 ∨ array.isEmpty then []
  else array.take size :: chunkArray (array.drop size) size
termination_by array.length
decreasing_by
  push_neg at h
  simp only [List.length_drop]
  have hlen : 0 < array.length := by
    cases array with
    | nil => simp at h
    | cons a l => simp
  omega

/-- The guarded front half of `flush()` (`batch-sender.ts:57-98`): a no-op
when a flush is already running or the buffer is empty; otherwise append the
metrics snapshot (when metrics are enabled), swap the buffer out for an empty
one, raise the `isFlushing` flag, and return the chunks to be POSTed, in
order. -/
def flushBegin {α : Type} (cfg : Config) (s : SenderState α) (metrics : List α) :
    List (List α) × SenderState α :=
  if s.isFlushing || s.buffer.isEmpty then ([], s)
  else
    let toSend := s.buffer ++ (if cfg.enableMetrics then metrics else [])
    (chunkArray toSend cfg.batchSize,
     { s with buffer := [], isFlushing := true })

/-- The `finally` block of `flush()` (`batch-sender.ts:102-104`): the
single-flight flag is lowered. -/
def flushEnd {α : Type} (s : SenderState α) : SenderState α :=
  { s with isFlushing := false }

/-- A whole `flush()` call run to completion.  When the guard fires, the
source returns before entering the `try`/`finally`, so the state is left
untouched; otherwise `flushBegin` is followed by the `finally` of
`flushEnd`. -/
def flush {α : Type} (cfg : Config) (s : SenderState α) (metrics : List α) :
    List (List α) × SenderState α :=
  if s.isFlushing || s.buffer.isEmpty then ([], s)
  else
    let r := flushBegin cfg s metrics
    (r.1, flushEnd r.2)

/-- `addEvent` (`batch-sender.ts:38-47`): when the buffer has reached
`maxBufferSize` a flush is attempted first (fire-and-forget: its chunks are
returned, not awaited), and the event is then pushed unconditionally. -/
def addEvent {α : Type} (cfg : Config) (s : SenderState α) (e : α) (metrics : List α) :
    List (List α) × SenderState α :=
  if cfg.maxBufferSize ≤ s.buffer.length then
    let r := flush cfg s metrics
    (r.1, { r.2 with buffer := r.2.buffer ++ [e] })
  else
    ([], { s with buffer := s.buffer ++ [e] })

/-- `shutdown()` (`batch-sender.ts:211-216`): clear the periodic timer, then
run one final `flush()` and await it. -/
def shutdown {α : Type} (cfg : Config) (s : SenderState α) (metrics : List α) :
    List (List α) × SenderState α :=
  flush cfg { s with timerActive := false } metrics

/-- What one HTTP POST attempt inside `sendWithRetry` comes back with: a
response with a status code, or a network/timeout error (a rejected
`fetch`). -/
inductive AttemptOutcome where
  | response (status : Nat)
  | networkError
deriving Repr, DecidableEq

/-- The observable behaviour of one `sendWithRetry` call: how many POSTs it
made, whether the chunk was delivered (a 2xx was reached), and the
exponential-backoff delays it slept, in order.  `sendWithRetry` always
returns normally, so the result needs no error case. -/
structure SendResult where
  posts : Nat
  delivered : Bool
  delays : List Nat
deriving Repr, DecidableEq

/-- The retry loop of `sendWithRetry` (`batch-sender.ts:163-209`), starting
at attempt index `i` with `fuel` attempts remaining; `oracle i` is what the
`i`-th POST comes back with.  A 2xx stops with the chunk delivered; any
other status `< 500` stops immediately (client error, not retried); a 5xx or
a network error is retried after `retryDelay * 2 ^ i` ms unless this was the
last attempt. -/
def sendWithRetryFrom (retryDelay : Nat) (oracle : Nat → AttemptOutcome) :
    Nat → Nat → SendResult
  | 0, _ => { posts := 0, delivered := false, delays := [] }
  | fuel + 1, i =>
    let retryStep : SendResult :=
      if fuel = 0 then { posts := 1, delivered := false, delays := [] }
      else
        let r := sendWithRetryFrom retryDelay oracle fuel (i + 1)
        { posts := r.posts + 1, delivered := r.delivered
          delays := retryDelay * 2 ^ i :: r.delays }
    match oracle i with
    | .networkError => retryStep
    | .response status =>
      if 200 ≤ status ∧ status < 300 then { posts := 1, delivered := true, delays := [] }
      else if status < 500 then { posts := 1, delivered := false, delays := [] }
      else retryStep

/-- `sendWithRetry`: run the loop from attempt 0 with `retryAttempts`
attempts available. -/
def sendWithRetry (retryAttempts retryDelay : Nat) (oracle : Nat → AttemptOutcome) :
    SendResult :=
  sendWithRetryFrom retryDelay oracle retryAttempts 0

/-- An attempt outcome that the loop retries on: a 5xx response or a network
error.  (A status below 200 that is not 2xx is treated by the source as a
client error, because the `< 500` branch catches it.) -/
def retryable : AttemptOutcome → Bool
  | .networkError => true
  | .response status => decide (500 ≤ status)

/-- `maxBreadcrumbs` of `ErrorTracker` (`src/tracking/error-tracker.ts:14`),
a fixed constant. -/
def maxBreadcrumbs : Nat := 100

/-- `addBreadcrumb` (`error-tracker.ts:122-146`), projected to the list of
stored breadcrumbs: push the new entry, then, when the cap is exceeded, keep
only the last `maxBreadcrumbs` entries (`slice(-100)`). -/
def addBreadcrumb {α : Type} (bs : List α) (b : α) : List α :=
  let l := bs ++ [b]
  if maxBreadcrumbs < l.length then l.drop (l.length - maxBreadcrumbs) else l

/- ## The PII sanitizer (`sanitizeValue` / `sanitizeObject` / `sanitizeHeaders`) -/

/-- A JSON-like runtime value, the shape of the `unknown` data the sanitizer
walks: null/undefined, booleans, numbers, strings, arrays, and plain objects
as ordered key/value pair lists. -/
inductive JValue where
  | vnull
  | vbool (b : Bool)
  | vnum (n : Int)
  | vstr (s : String)
  | varr (items : List JValue)
  | vobj (fields : List (String × JValue))
deriving Repr

/-- One item of an anchored regular expression of the restricted shape the
sanitizer's patterns use: a character class repeated exactly `n` times
(`\d{4}`), an optional character class (`[\s-]?`), a one-or-more character
class (`[^\s@]+`), or a literal character. -/
inductive RItem where
  | rep (p : Char → Bool) (n : Nat)
  | opt (p : Char → Bool)
  | many1 (p : Char → Bool)
  | lit (c : Char)

/-- Anchored backtracking match of an item sequence against the whole
character list — the semantics of `/^...$/.test(s)` for the restricted
shape above.  `many1` tries every non-zero split, as backtracking does. -/
def matchSeq : List RItem → List Char → Bool
  | [], cs => cs.isEmpty
  | .rep p n :: rest, cs =>
    decide (n ≤ cs.length) && (cs.take n).all p && matchSeq rest (cs.drop n)
  | .opt p :: rest, cs =>
    matchSeq rest cs ||
      (match cs with
       | [] => false
       | c :: cs' => p c && matchSeq rest cs')
  | .many1 p :: rest, cs =>
    (List.range cs.length).any fun k =>
      ((cs.take (k + 1)).all p && matchSeq rest (cs.drop (k + 1)))
  | .lit c :: rest, cs =>
    match cs with
    | [] => false
    | c' :: cs' => (c' == c) && matchSeq rest cs'

/-- The JavaScript `\s` class, restricted to the ASCII code points that can
occur here. -/
def jsWhitespace (c : Char) : Bool :=
  c == ' ' || c == '\t' || c == '\n' || c == '\r' || c == '\x0b' || c == '\x0c'

/-- A character admissible in every segment of the email pattern:
`[^\s@]`. -/
def emailChar (c : Char) : Bool :=
  !jsWhitespace c && !(c == '@')

/-- `/^[^\s@]+@[^\s@]+\.[^\s@]+$/` applied to the whole string. -/
def emailTest (s : String) : Bool :=
  matchSeq [.many1 emailChar, .lit '@', .many1 emailChar, .lit '.', .many1 emailChar] s.data

/-- `[\s-]`, the optional separator class of the card pattern. -/
def cardSep (c : Char) : Bool :=
  jsWhitespace c || c == '-'

/-- `/^\d{4}[\s-]?\d{4}[\s-]?\d{4}[\s-]?\d{4}$/` applied to the string with
all whitespace removed first (`value.replace(/\s/g, '')`). -/
def cardTest (s : String) : Bool :=
  matchSeq
    [.rep Char.isDigit 4, .opt cardSep, .rep Char.isDigit 4, .opt cardSep,
     .rep Char.isDigit 4, .opt cardSep, .rep Char.isDigit 4]
    (s.data.filter fun c => !jsWhitespace c)

/-- `/^\d{3}-?\d{2}-?\d{4}$/` applied to the whole string. -/
def ssnTest (s : String) : Bool :=
  matchSeq
    [.rep Char.isDigit 3, .opt (· == '-'), .rep Char.isDigit 2, .opt (· == '-'),
     .rep Char.isDigit 4]
    s.data

/-- The string branch of `sanitizeValue`: email first, then card, then SSN,
otherwise the string passes through. -/
def sanitizeString (s : String) : String :=
  if emailTest s then "[REDACTED_EMAIL]"
  else if cardTest s then "[REDACTED_CARD]"
  else if ssnTest s then "[REDACTED_SSN]"
  else s

/-- `hay.includes(needle)` on strings: some suffix of `hay` starts with
`needle`. -/
def strContainsSub (hay needle : String) : Bool :=
  (List.range (hay.data.length + 1)).any fun i => needle.data.isPrefixOf (hay.data.drop i)

/-- `toLowerCase()`, character by character (ASCII case mapping). -/
def toLowerString (s : String) : String :=
  ⟨s.data.map Char.toLower⟩

/-- A key is blocked when its lowercase form contains any of the lowercased
configured PII field names as a substring
(`lowerPiiFields.some((f) => lowerKey.includes(f))`). -/
def isBlockedKey (piiFields : List String) (key : String) : Bool :=
  (piiFields.map toLowerString).any fun f => strContainsSub (toLowerString key) f

/-- `DEFAULT_PII_FIELDS` of the sanitizer module. -/
def DEFAULT_PII_FIELDS : List String :=
  ["password", "token", "authorization", "apiKey", "secret", "ssn", "creditCard",
   "email", "phone", "address", "credit_card", "api_key", "access_token",
   "refresh_token"]

mutual

/-- `sanitizeValue`: null/undefined and non-string primitives pass through;
strings go through the three pattern checks; arrays and objects recurse. -/
def sanitizeValue (piiFields : List String) : JValue → JValue
  | .vnull => .vnull
  | .vbool b => .vbool b
  | .vnum n => .vnum n
  | .vstr s => .vstr (sanitizeString s)
  | .varr items => .varr (sanitizeItems piiFields items)
  | .vobj fields => .vobj (sanitizeObject piiFields fields)

/-- The `value.map((item) => sanitizeValue(item, piiFields))` branch. -/
def sanitizeItems (piiFields : List String) : List JValue → List JValue
  | [] => []
  | v :: vs => sanitizeValue piiFields v :: sanitizeItems piiFields vs

/-- `sanitizeObject`: a blocked key's value becomes the literal
`"[REDACTED]"` regardless of its type; other values are sanitized
recursively. -/
def sanitizeObject (piiFields : List String) :
    List (String × JValue) → List (String × JValue)
  | [] => []
  | (k, v) :: rest =>
    (k, if isBlockedKey piiFields k then .vstr "[REDACTED]"
        else sanitizeValue piiFields v) :: sanitizeObject piiFields rest

end

mutual

/-- Output invariant of the sanitizer: every object field under a blocked
key holds exactly the literal `"[REDACTED]"`, and no string value anywhere
still matches one of the three PII patterns — at every nesting depth,
arrays included. -/
def sanitizedOK (piiFields : List String) : JValue → Bool
  | .vnull => true
  | .vbool _ => true
  | .vnum _ => true
  | .vstr s => !(emailTest s || cardTest s || ssnTest s)
  | .varr items => sanitizedOKItems piiFields items
  | .vobj fields => sanitizedOKFields piiFields fields

/-- The invariant over array elements. -/
def sanitizedOKItems (piiFields : List String) : List JValue → Bool
  | [] => true
  | v :: vs => sanitizedOK piiFields v && sanitizedOKItems piiFields vs

/-- The invariant over object fields. -/
def sanitizedOKFields (piiFields : List String) : List (String × JValue) → Bool
  | [] => true
  | (k, v) :: rest =>
    (if isBlockedKey piiFields k then
       (match v with
        | .vstr s => s == "[REDACTED]"
        | _ => false)
     else sanitizedOK piiFields v) && sanitizedOKFields piiFields rest

end

/-- A raw header value: a string, a string array, or undefined
(`string | string[] | undefined`). -/
inductive HeaderValue where
  | hstr (s : String)
  | harr (ls : List String)
  | hundef
deriving Repr, DecidableEq

/-- `sanitizeHeaders` with the effective blocklist already resolved (the
source computes `config.piiFields || DEFAULT_PII_FIELDS`; `||` keeps even an
empty configured array, since an array is truthy): blocked keys map to
`"[REDACTED]"`, arrays are joined with `", "`, undefined becomes `""`
(`value || ''`). -/
def sanitizeHeaders (piiFields : List String) :
    List (String × HeaderValue) → List (String × String)
  | [] => []
  | (k, v) :: rest =>
    (k, if isBlockedKey piiFields k then "[REDACTED]"
        else
          match v with
          | .harr ls => String.intercalate ", " ls
          | .hstr s => s
          | .hundef => "") :: sanitizeHeaders piiFields rest

/- ## `generateFingerprint` and SHA-256

`generateFingerprint` calls Node's `createHash('sha256')`; its behaviour is
the FIPS 180-4 SHA-256 algorithm, implemented here executably over byte
lists (bytes and 32-bit words are `Nat` with explicit `% 2 ^ 32`
truncation). -/

namespace SHA256

/-- Truncate to a 32-bit word. -/
def w32 (n : Nat) : Nat := n % 2 ^ 32

/-- Rotate a 32-bit word right by `k`. -/
def rotr (k n : Nat) : Nat := w32 ((n >>> k) ||| (n <<< (32 - k)))

/-- Bitwise complement of a 32-bit word. -/
def bnot32 (n : Nat) : Nat := n ^^^ (2 ^ 32 - 1)

/-- Big sigma-0: rotations by 2, 13, 22. -/
def bigSigma0 (x : Nat) : Nat := rotr 2 x ^^^ rotr 13 x ^^^ rotr 22 x

/-- Big sigma-1: rotations by 6, 11, 25. -/
def bigSigma1 (x : Nat) : Nat := rotr 6 x ^^^ rotr 11 x ^^^ rotr 25 x

/-- Small sigma-0: rotations by 7, 18 and shift by 3. -/
def smallSigma0 (x : Nat) : Nat := rotr 7 x ^^^ rotr 18 x ^^^ (x >>> 3)

/-- Small sigma-1: rotations by 17, 19 and shift by 10. -/
def smallSigma1 (x : Nat) : Nat := rotr 17 x ^^^ rotr 19 x ^^^ (x >>> 10)

/-- Choice function. -/
def ch (x y z : Nat) : Nat := (x &&& y) ^^^ (bnot32 x &&& z)

/-- Majority function. -/
def maj (x y z : Nat) : Nat := (x &&& y) ^^^ (x &&& z) ^^^ (y &&& z)

/-- The 64 round constants (fractional parts of the cube roots of the first
64 primes), in decimal. -/
def K : List Nat :=
  [1116352408, 1899447441, 3049323471, 3921009573, 961987163, 1508970993,
   2453635748, 2870763221, 3624381080, 310598401, 607225278, 1426881987,
   1925078388, 2162078206, 2614888103, 3248222580, 3835390401, 4022224774,
   264347078, 604807628, 770255983, 1249150122, 1555081692, 1996064986,
   2554220882, 2821834349, 2952996808, 3210313671, 3336571891, 3584528711,
   113926993, 338241895, 666307205, 773529912, 1294757372, 1396182291,
   1695183700, 1986661051, 2177026350, 2456956037, 2730485921, 2820302411,
   3259730800, 3345764771, 3516065817, 3600352804, 4094571909, 275423344,
   430227734, 506948616, 659060556, 883997877, 958139571, 1322822218,
   1537002063, 1747873779, 1955562222, 2024104815, 2227730452, 2361852424,
   2428436474, 2756734187, 3204031479, 3329325298]

/-- The working registers a–h. -/
structure Regs where
  a : Nat
  b : Nat
  c : Nat
  d : Nat
  e : Nat
  f : Nat
  g : Nat
  h : Nat
deriving Repr, DecidableEq

/-- The initial hash value (fractional parts of the square roots of the
first 8 primes), in decimal. -/
def initH : Regs :=
  { a := 1779033703, b := 3144134277, c := 1013904242, d := 2773480762,
    e := 1359893119, f := 2600822924, g := 528734635, h := 1541459225 }

/-- Big-endian bytes of `n`, `k` bytes wide. -/
def toBytesBE (k n : Nat) : List Nat :=
  match k with
  | 0 => []
  | k + 1 => toBytesBE k (n / 256) ++ [n % 256]

/-- A big-endian word from its bytes. -/
def bytesToWord (bs : List Nat) : Nat :=
  bs.foldl (fun acc b => acc * 256 + b) 0

/-- SHA-256 padding: a `0x80` byte, zeros to 56 mod 64, then the 64-bit
big-endian bit length. -/
def padMessage (msg : List Nat) : List Nat :=
  msg ++ 0x80 :: List.replicate ((55 + 64 - msg.length % 64) % 64) 0
      ++ toBytesBE 8 (8 * msg.length)

/-- One new message-schedule word from the previous sixteen. -/
def nextW (ws : List Nat) : Nat :=
  w32 (smallSigma1 (ws.getD (ws.length - 2) 0) + ws.getD (ws.length - 7) 0 +
    smallSigma0 (ws.getD (ws.length - 15) 0) + ws.getD (ws.length - 16) 0)

/-- Extend the message schedule by `n` further words. -/
def extendW (ws : List Nat) : Nat → List Nat
  | 0 => ws
  | n + 1 => extendW (ws ++ [nextW ws]) n

/-- One compression round with key/schedule word pair `kw`. -/
def round (r : Regs) (kw : Nat × Nat) : Regs :=
  let t1 := w32 (r.h + bigSigma1 r.e + ch r.e r.f r.g + kw.1 + kw.2)
  let t2 := w32 (bigSigma0 r.a + maj r.a r.b r.c)
  { a := w32 (t1 + t2), b := r.a, c := r.b, d := r.c,
    e := w32 (r.d + t1), f := r.e, g := r.f, h := r.g }

/-- Compress one 64-byte block into the running hash value. -/
def compressBlock (r : Regs) (block : List Nat) : Regs :=
  let ws := extendW ((chunkArray block 4).map bytesToWord) 48
  let t := (K.zip ws).foldl round r
  { a := w32 (r.a + t.a), b := w32 (r.b + t.b), c := w32 (r.c + t.c),
    d := w32 (r.d + t.d), e := w32 (r.e + t.e), f := w32 (r.f + t.f),
    g := w32 (r.g + t.g), h := w32 (r.h + t.h) }

/-- SHA-256 of a byte list: 32 digest bytes. -/
def sha256 (msg : List Nat) : List Nat :=
  let r := (chunkArray (padMessage msg) 64).foldl compressBlock initH
  toBytesBE 4 r.a ++ toBytesBE 4 r.b ++ toBytesBE 4 r.c ++ toBytesBE 4 r.d ++
    toBytesBE 4 r.e ++ toBytesBE 4 r.f ++ toBytesBE 4 r.g ++ toBytesBE 4 r.h

/-- The sixteen lowercase hexadecimal digits. -/
def hexDigits : List Char := "0123456789abcdef".data

/-- The lowercase hex digit of a value below 16. -/
def hexChar (n : Nat) : Char := hexDigits.getD n 'x'

/-- Lowercase hex encoding, two characters per byte (`digest('hex')`). -/
def bytesToHex (bs : List Nat) : List Char :=
  bs.flatMap fun b => [hexChar (b / 16), hexChar (b % 16)]

/-- UTF-8 bytes of one character (what `hash.update(string)` does to its
input string). -/
def utf8EncodeChar (c : Char) : List Nat :=
  let n := c.toNat
  if n < 0x80 then [n]
  else if n < 0x800 then [0xc0 ||| (n >>> 6), 0x80 ||| (n &&& 0x3f)]
  else if n < 0x10000 then
    [0xe0 ||| (n >>> 12), 0x80 ||| ((n >>> 6) &&& 0x3f), 0x80 ||| (n &&& 0x3f)]
  else
    [0xf0 ||| (n >>> 18), 0x80 ||| ((n >>> 12) &&& 0x3f),
     0x80 ||| ((n >>> 6) &&& 0x3f), 0x80 ||| (n &&& 0x3f)]

/-- UTF-8 bytes of a string. -/
def utf8Encode (s : String) : List Nat := s.data.flatMap utf8EncodeChar

end SHA256

/-- The hashing tail of `generateFingerprint`: SHA-256 of the UTF-8 bytes of
`data`, hex-encoded, first 16 characters (`substring(0, 16)`). -/
def fingerprintOfData (data : String) : String :=
  ⟨(SHA256.bytesToHex (SHA256.sha256 (SHA256.utf8Encode data))).take 16⟩

/-- `generateFingerprint` (`src/utils/config.ts:131-134`): hash the
colon-joined string of type, service and endpoint.  The endpoint parameter
is optional; `Option.getD` with default `""` mirrors `endpoint || ''`
(JavaScript `||` maps both `undefined` and the empty string to `''`). -/
def generateFingerprint (type service : String) (endpoint : Option String) : String :=
  fingerprintOfData (type ++ ":" ++ service ++ ":" ++ endpoint.getD "")

/- ### Lemmas about `chunkArray` -/

theorem chunkArray_nil {α : Type} (size : Nat) : chunkArray ([] : List α) size = [] := by
  rw [chunkArray]; simp

theorem chunkArray_zero {α : Type} (l : List α) : chunkArray l 0 = [] := by
  rw [chunkArray]; simp

theorem chunkArray_cons {α : Type} (size : Nat) (hs : size ≠ 0) (a : α) (l : List α) :
    chunkArray (a :: l) size =
      (a :: l).take size :: chunkArray ((a :: l).drop size) size := by
  rw [chunkArray]; simp [hs]

theorem chunkArray_eq_cons {α : Type} (size : Nat) (hs : size ≠ 0) (l : List α)
    (hl : l ≠ []) :
    chunkArray l size = l.take size :: chunkArray (l.drop size) size := by
  cases l with
  | nil => exact absurd rfl hl
  | cons a l => exact chunkArray_cons size hs a l

/-- The chunks concatenate back to the original list. -/
theorem chunkArray_flatten {α : Type} (size : Nat) (hs : 0 < size) (l : List α) :
    (chunkArray l size).flatten = l := by
  cases l with
  | nil => simp [chunkArray_nil]
  | cons a l =>
    rw [chunkArray_cons size (Nat.pos_iff_ne_zero.mp hs) a l, List.flatten_cons,
      chunkArray_flatten size hs ((a :: l).drop size), List.take_append_drop]
termination_by l.length
decreasing_by
  simp only [List.length_drop, List.length_cons]
  omega

/-- Every chunk is non-empty and no longer than `size` (fuel-indexed
auxiliary: `n` bounds the length of `l`). -/
theorem chunkArray_mem_length_aux {α : Type} (size : Nat) (hs : 0 < size) :
    ∀ (n : Nat) (l : List α), l.length ≤ n → ∀ c ∈ chunkArray l size,
      c ≠ [] ∧ c.length ≤ size := by
  intro n
  induction n with
  | zero =>
    intro l hl c hc
    rw [List.length_eq_zero.mp (Nat.le_zero.mp hl), chunkArray_nil] at hc
    cases hc
  | succ n ih =>
    intro l hl c hc
    cases l with
    | nil => rw [chunkArray_nil] at hc; cases hc
    | cons a l =>
      rw [chunkArray_cons size (Nat.pos_iff_ne_zero.mp hs) a l] at hc
      rcases List.mem_cons.mp hc with rfl | hc
      · obtain ⟨m, rfl⟩ := Nat.exists_eq_succ_of_ne_zero (Nat.pos_iff_ne_zero.mp hs)
        constructor
        · simp [List.take_succ_cons]
        · simp [List.length_take]
      · refine ih ((a :: l).drop size) ?_ c hc
        simp only [List.length_drop, List.length_cons]
        simp only [List.length_cons] at hl
        omega

/-- Every chunk is non-empty and no longer than `size`. -/
theorem chunkArray_mem_length {α : Type} (size : Nat) (hs : 0 < size) (l : List α)
    (c : List α) (hc : c ∈ chunkArray l size) : c ≠ [] ∧ c.length ≤ size :=
  chunkArray_mem_length_aux size hs l.length l le_rfl c hc

/-- Every chunk except possibly the last has exactly `size` elements
(fuel-indexed auxiliary). -/
theorem chunkArray_dropLast_length_aux {α : Type} (size : Nat) (hs : 0 < size) :
    ∀ (n : Nat) (l : List α), l.length ≤ n → ∀ c ∈ (chunkArray l size).dropLast,
      c.length = size := by
  intro n
  induction n with
  | zero =>
    intro l hl c hc
    rw [List.length_eq_zero.mp (Nat.le_zero.mp hl), chunkArray_nil] at hc
    cases hc
  | succ n ih =>
    intro l hl c hc
    cases l with
    | nil => rw [chunkArray_nil] at hc; cases hc
    | cons a l =>
      rw [chunkArray_cons size (Nat.pos_iff_ne_zero.mp hs) a l] at hc
      rcases hrest : chunkArray ((a :: l).drop size) size with _ | ⟨c₂, cs⟩
      · rw [hrest] at hc; simp at hc
      · rw [hrest, List.dropLast_cons_of_ne_nil (by simp)] at hc
        rcases List.mem_cons.mp hc with rfl | hc
        · -- the head chunk is full because more chunks follow,
          -- i.e. the drop was non-empty, i.e. size < length
          have hdrop : (a :: l).drop size ≠ [] := by
            intro hnil
            rw [hnil, chunkArray_nil] at hrest
            cases hrest
          have hlt : size < (a :: l).length := by
            by_contra hle
            exact hdrop (List.drop_eq_nil_of_le (by omega))
          simp only [List.length_take, List.length_cons]
          simp only [List.length_cons] at hlt
          omega
        · refine ih ((a :: l).drop size) ?_ c (hrest ▸ hc)
          simp only [List.length_drop, List.length_cons]
          simp only [List.length_cons] at hl
          omega

/-- Every chunk except possibly the last has exactly `size` elements. -/
theorem chunkArray_dropLast_length {α : Type} (size : Nat) (hs : 0 < size) (l : List α)
    (c : List α) (hc : c ∈ (chunkArray l size).dropLast) : c.length = size :=
  chunkArray_dropLast_length_aux size hs l.length l le_rfl c hc

/-- Concrete instance: five elements in chunks of two. -/
theorem chunkArray_five_two {α : Type} (a b c d e : α) :
    chunkArray [a, b, c, d, e] 2 = [[a, b], [c, d], [e]] := by
  rw [chunkArray_eq_cons 2 (by omega) _ (by simp)]
  show [a, b] :: chunkArray [c, d, e] 2 = _
  rw [chunkArray_eq_cons 2 (by omega) _ (by simp)]
  show [a, b] :: [c, d] :: chunkArray [e] 2 = _
  rw [chunkArray_eq_cons 2 (by omega) _ (by simp)]
  show [a, b] :: [c, d] :: [e] :: chunkArray [] 2 = _
  rw [chunkArray_nil]

/- ### Lemmas about `sendWithRetryFrom` -/

/-- Unfolding step: a network error on a non-last attempt sleeps the
backoff delay and continues; on the last attempt the chunk is dropped. -/
theorem sendWithRetryFrom_net (rd : Nat) (oracle : Nat → AttemptOutcome)
    (fuel i : Nat) (ho : oracle i = .networkError) :
    sendWithRetryFrom rd oracle (fuel + 1) i =
      if fuel = 0 then { posts := 1, delivered := false, delays := [] }
      else
        { posts := (sendWithRetryFrom rd oracle fuel (i + 1)).posts + 1
          delivered := (sendWithRetryFrom rd oracle fuel (i + 1)).delivered
          delays := rd * 2 ^ i :: (sendWithRetryFrom rd oracle fuel (i + 1)).delays } := by
  conv_lhs => rw [sendWithRetryFrom]
  rw [ho]

/-- Unfolding step: a response on attempt `i` is classified by its status:
2xx delivers, any other status below 500 stops, 5xx retries. -/
theorem sendWithRetryFrom_resp (rd : Nat) (oracle : Nat → AttemptOutcome)
    (fuel i s : Nat) (ho : oracle i = .response s) :
    sendWithRetryFrom rd oracle (fuel + 1) i =
      if 200 ≤ s ∧ s < 300 then { posts := 1, delivered := true, delays := [] }
      else if s < 500 then { posts := 1, delivered := false, delays := [] }
      else if fuel = 0 then { posts := 1, delivered := false, delays := [] }
      else
        { posts := (sendWithRetryFrom rd oracle fuel (i + 1)).posts + 1
          delivered := (sendWithRetryFrom rd oracle fuel (i + 1)).delivered
          delays := rd * 2 ^ i :: (sendWithRetryFrom rd oracle fuel (i + 1)).delays } := by
  conv_lhs => rw [sendWithRetryFrom]
  rw [ho]

/-- A retryable outcome on attempt `i` sleeps and continues (or stops after
the last attempt), uniformly over the two retryable outcome shapes. -/
theorem sendWithRetryFrom_retryable (rd : Nat) (oracle : Nat → AttemptOutcome)
    (fuel i : Nat) (hr : retryable (oracle i) = true) :
    sendWithRetryFrom rd oracle (fuel + 1) i =
      if fuel = 0 then { posts := 1, delivered := false, delays := [] }
      else
        { posts := (sendWithRetryFrom rd oracle fuel (i + 1)).posts + 1
          delivered := (sendWithRetryFrom rd oracle fuel (i + 1)).delivered
          delays := rd * 2 ^ i :: (sendWithRetryFrom rd oracle fuel (i + 1)).delays } := by
  cases ho : oracle i with
  | networkError => exact sendWithRetryFrom_net rd oracle fuel i ho
  | response s =>
    rw [ho] at hr
    simp only [retryable, decide_eq_true_eq] at hr
    rw [sendWithRetryFrom_resp rd oracle fuel i s ho,
      if_neg (by omega), if_neg (by omega)]

/-- When every attempt is retryable, the loop makes exactly `fuel` POSTs,
sleeps the backoff delays of all but the last attempt, and gives up. -/
theorem sendWithRetryFrom_all_retryable (rd : Nat) (oracle : Nat → AttemptOutcome)
    (fuel i : Nat) (h : ∀ j, j < fuel → retryable (oracle (i + j)) = true) :
    sendWithRetryFrom rd oracle fuel i =
      { posts := fuel, delivered := false
        delays := (List.range (fuel - 1)).map fun j => rd * 2 ^ (i + j) } := by
  induction fuel generalizing i with
  | zero => simp [sendWithRetryFrom]
  | succ fuel ih =>
    have h0 : retryable (oracle i) = true := by
      have := h 0 (Nat.succ_pos fuel); simpa using this
    have hstep : ∀ j, j < fuel → retryable (oracle (i + 1 + j)) = true := by
      intro j hj
      have := h (j + 1) (by omega)
      simpa [Nat.add_assoc, Nat.add_comm 1 j] using this
    rw [sendWithRetryFrom_retryable rd oracle fuel i h0]
    rcases fuel with _ | fuel
    · simp
    · rw [if_neg (Nat.succ_ne_zero fuel), ih (i + 1) hstep]
      simp [List.range_succ_eq_map, List.map_map, Function.comp_def,
        Nat.add_assoc, Nat.add_comm 1]

/-- When the first `k` attempts are retryable and attempt `k` gets a 2xx,
the loop makes exactly `k + 1` POSTs and reports the chunk delivered. -/
theorem sendWithRetryFrom_success (rd : Nat) (oracle : Nat → AttemptOutcome)
    (fuel i k s : Nat) (hk : k < fuel)
    (h : ∀ j, j < k → retryable (oracle (i + j)) = true)
    (ho : oracle (i + k) = .response s) (h2 : 200 ≤ s) (h3 : s < 300) :
    sendWithRetryFrom rd oracle fuel i =
      { posts := k + 1, delivered := true
        delays := (List.range k).map fun j => rd * 2 ^ (i + j) } := by
  induction fuel generalizing i k with
  | zero => omega
  | succ fuel ih =>
    rcases Nat.eq_zero_or_pos k with hz | hpos
    · subst hz
      simp only [Nat.add_zero] at ho
      rw [sendWithRetryFrom_resp rd oracle fuel i s ho, if_pos ⟨h2, h3⟩]
      simp
    · have h0 : retryable (oracle i) = true := by
        have := h 0 hpos; simpa using this
      have hfuel : fuel ≠ 0 := by omega
      have hrec : sendWithRetryFrom rd oracle fuel (i + 1) =
          { posts := (k - 1) + 1, delivered := true
            delays := (List.range (k - 1)).map fun j => rd * 2 ^ (i + 1 + j) } := by
        apply ih (i + 1) (k - 1) (by omega)
        · intro j hj
          have := h (j + 1) (by omega)
          simpa [Nat.add_assoc, Nat.add_comm 1 j] using this
        · have : i + 1 + (k - 1) = i + k := by omega
          rw [this, ho]
      have hdel : (List.range k).map (fun j => rd * 2 ^ (i + j)) =
          rd * 2 ^ i :: (List.range (k - 1)).map fun j => rd * 2 ^ (i + 1 + j) := by
        rcases Nat.exists_eq_succ_of_ne_zero (by omega : k ≠ 0) with ⟨m, rfl⟩
        simp [List.range_succ_eq_map, List.map_map, Function.comp_def,
          Nat.add_assoc, Nat.add_comm 1]
      rw [sendWithRetryFrom_retryable rd oracle fuel i h0, if_neg hfuel, hrec, hdel]
      simp only [SendResult.mk.injEq, and_true, true_and]
      omega

/-- A non-2xx status below 500 stops the loop at once, chunk dropped. -/
theorem sendWithRetryFrom_client_stop (rd : Nat) (oracle : Nat → AttemptOutcome)
    (fuel i s : Nat) (ho : oracle i = .response s)
    (h4 : ¬(200 ≤ s ∧ s < 300)) (h5 : s < 500) :
    sendWithRetryFrom rd oracle (fuel + 1) i =
      { posts := 1, delivered := false, delays := [] } := by
  rw [sendWithRetryFrom_resp rd oracle fuel i s ho, if_neg h4, if_pos h5]

/- ### Lemmas about `addBreadcrumb` -/

/-- Folding `addBreadcrumb` over any event sequence from an empty store
keeps exactly the most recent `maxBreadcrumbs` entries, in order. -/
theorem addBreadcrumb_foldl {α : Type} (es : List α) :
    List.foldl addBreadcrumb [] es = es.drop (es.length - maxBreadcrumbs) := by
  have hM : maxBreadcrumbs = 100 := rfl
  induction es using List.reverseRecOn with
  | nil => simp
  | append_singleton l a ih =>
    rw [List.foldl_append, List.foldl_cons, List.foldl_nil, ih]
    by_cases hn : l.length ≤ maxBreadcrumbs
    · have h0 : l.length - maxBreadcrumbs = 0 := by omega
      rw [h0, List.drop_zero]
      unfold addBreadcrumb
      simp only [List.length_append, List.length_singleton]
      by_cases h1 : maxBreadcrumbs < l.length + 1
      · rw [if_pos h1]
      · rw [if_neg h1]
        have h2 : l.length + 1 - maxBreadcrumbs = 0 := by omega
        rw [h2, List.drop_zero]
    · push_neg at hn
      have hlen : (l.drop (l.length - maxBreadcrumbs)).length = maxBreadcrumbs := by
        simp only [List.length_drop]
        omega
      unfold addBreadcrumb
      simp only [List.length_append, List.length_singleton, hlen]
      rw [if_pos (by omega)]
      have h1 : maxBreadcrumbs + 1 - maxBreadcrumbs = 1 := by omega
      rw [h1, List.drop_append_of_le_length (by rw [hlen]; omega), List.drop_drop,
        List.drop_append_of_le_length (by omega)]
      congr 2
      omega

/- ### Lemmas about the sanitizer -/

/-- No output of `sanitizeString` still matches one of the three PII
patterns: the three markers match none of them, and a passed-through string
failed all three tests. -/
theorem sanitizeString_ok (s : String) :
    (emailTest (sanitizeString s) || cardTest (sanitizeString s) ||
      ssnTest (sanitizeString s)) = false := by
  unfold sanitizeString
  by_cases h1 : emailTest s
  · rw [if_pos h1]; decide
  · rw [if_neg h1]
    by_cases h2 : cardTest s
    · rw [if_pos h2]; decide
    · rw [if_neg h2]
      by_cases h3 : ssnTest s
      · rw [if_pos h3]; decide
      · rw [if_neg h3]
        simp only [Bool.not_eq_true] at h1 h2 h3
        rw [h1, h2, h3]
        rfl

/-- A string none of the three patterns matches passes through unchanged. -/
theorem sanitizeString_of_clean (t : String) (h1 : emailTest t = false)
    (h2 : cardTest t = false) (h3 : ssnTest t = false) : sanitizeString t = t := by
  unfold sanitizeString
  rw [h1, h2, h3]
  rfl

/-- The string sanitizer is idempotent. -/
theorem sanitizeString_idem (s : String) :
    sanitizeString (sanitizeString s) = sanitizeString s := by
  have hok := sanitizeString_ok s
  simp only [Bool.or_eq_false_iff] at hok
  exact sanitizeString_of_clean _ hok.1.1 hok.1.2 hok.2

/-- An array element is smaller than the array value holding it. -/
theorem JValue.sizeOf_lt_of_mem {v : JValue} {items : List JValue}
    (h : v ∈ items) : sizeOf v < sizeOf (JValue.varr items) := by
  induction items with
  | nil => cases h
  | cons a l ih =>
    rcases List.mem_cons.mp h with rfl | h
    · simp
      omega
    · have := ih h
      simp at this ⊢
      omega

/-- A field's value is smaller than the object value holding it. -/
theorem JValue.sizeOf_snd_lt_of_mem {kv : String × JValue}
    {fields : List (String × JValue)} (h : kv ∈ fields) :
    sizeOf kv.2 < sizeOf (JValue.vobj fields) := by
  induction fields with
  | nil => cases h
  | cons a l ih =>
    rcases List.mem_cons.mp h with rfl | h
    · obtain ⟨k, v⟩ := kv
      simp
      omega
    · have := ih h
      simp at this ⊢
      omega

/-- Fuel-indexed structural induction for `JValue` through the nested
lists. -/
theorem JValue.induction_fuel {P : JValue → Prop}
    (hnull : P .vnull) (hbool : ∀ b, P (.vbool b)) (hnum : ∀ n, P (.vnum n))
    (hstr : ∀ s, P (.vstr s))
    (harr : ∀ items, (∀ v ∈ items, P v) → P (.varr items))
    (hobj : ∀ fields, (∀ kv ∈ fields, P kv.2) → P (.vobj fields)) :
    ∀ (n : Nat) (v : JValue), sizeOf v ≤ n → P v := by
  intro n
  induction n with
  | zero =>
    intro v hv
    exfalso
    cases v <;> simp at hv
  | succ n ih =>
    intro v hv
    cases v with
    | vnull => exact hnull
    | vbool b => exact hbool b
    | vnum m => exact hnum m
    | vstr s => exact hstr s
    | varr items =>
      refine harr items fun w hw => ih w ?_
      have := JValue.sizeOf_lt_of_mem hw
      omega
    | vobj fields =>
      refine hobj fields fun kv hkv => ih kv.2 ?_
      have := JValue.sizeOf_snd_lt_of_mem hkv
      omega

/-- Structural induction for `JValue` with membership hypotheses for the
nested lists. -/
theorem JValue.inductionOn {P : JValue → Prop}
    (hnull : P .vnull) (hbool : ∀ b, P (.vbool b)) (hnum : ∀ n, P (.vnum n))
    (hstr : ∀ s, P (.vstr s))
    (harr : ∀ items, (∀ v ∈ items, P v) → P (.varr items))
    (hobj : ∀ fields, (∀ kv ∈ fields, P kv.2) → P (.vobj fields)) :
    ∀ v, P v :=
  fun v => JValue.induction_fuel hnull hbool hnum hstr harr hobj (sizeOf v) v le_rfl

/-- `sanitizeItems` is a map of `sanitizeValue`. -/
theorem sanitizeItems_eq_map (pii : List String) (items : List JValue) :
    sanitizeItems pii items = items.map (sanitizeValue pii) := by
  induction items with
  | nil => rfl
  | cons v vs ih => simp [sanitizeItems, ih]

/-- `sanitizeObject` maps every field to its key together with either the
redaction marker (blocked key) or the sanitized value. -/
theorem sanitizeObject_eq_map (pii : List String) (fields : List (String × JValue)) :
    sanitizeObject pii fields = fields.map fun kv =>
      (kv.1, if isBlockedKey pii kv.1 then JValue.vstr "[REDACTED]"
             else sanitizeValue pii kv.2) := by
  induction fields with
  | nil => rfl
  | cons kv rest ih =>
    obtain ⟨k, v⟩ := kv
    simp [sanitizeObject, ih]

/-- Object-level idempotence, given idempotence on the field values. -/
theorem sanitizeObject_idem_of (pii : List String) (fields : List (String × JValue))
    (ih : ∀ kv ∈ fields,
      sanitizeValue pii (sanitizeValue pii kv.2) = sanitizeValue pii kv.2) :
    sanitizeObject pii (sanitizeObject pii fields) = sanitizeObject pii fields := by
  induction fields with
  | nil => rfl
  | cons kv rest ihr =>
    obtain ⟨k, v⟩ := kv
    have hrest := ihr fun kv h => ih kv (List.mem_cons_of_mem _ h)
    by_cases hb : isBlockedKey pii k
    · simp [sanitizeObject, hb, hrest]
    · have hv := ih (k, v) (List.mem_cons_self _ _)
      simp [sanitizeObject, hb, hrest, hv]

/-- The sanitizer's string outputs satisfy the invariant. -/
theorem sanitizedOK_sanitizeString (pii : List String) (s : String) :
    sanitizedOK pii (.vstr (sanitizeString s)) = true := by
  have h := sanitizeString_ok s
  simp [sanitizedOK, Bool.or_eq_false_iff.mp h]

/-- Sanitized array elements satisfy the invariant elementwise. -/
theorem sanitizedOKItems_sanitizeItems (pii : List String) (items : List JValue)
    (ih : ∀ v ∈ items, sanitizedOK pii (sanitizeValue pii v) = true) :
    sanitizedOKItems pii (sanitizeItems pii items) = true := by
  induction items with
  | nil => rfl
  | cons v vs ihr =>
    simp [sanitizeItems, sanitizedOKItems, ih v (List.mem_cons_self _ _),
      ihr fun w h => ih w (List.mem_cons_of_mem _ h)]

/-- Sanitized object fields satisfy the invariant fieldwise. -/
theorem sanitizedOKFields_sanitizeObject (pii : List String)
    (fields : List (String × JValue))
    (ih : ∀ kv ∈ fields, sanitizedOK pii (sanitizeValue pii kv.2) = true) :
    sanitizedOKFields pii (sanitizeObject pii fields) = true := by
  induction fields with
  | nil => rfl
  | cons kv rest ihr =>
    obtain ⟨k, v⟩ := kv
    have hrest := ihr fun kv h => ih kv (List.mem_cons_of_mem _ h)
    by_cases hb : isBlockedKey pii k
    · simp [sanitizeObject, sanitizedOKFields, hb, hrest]
    · have hv := ih (k, v) (List.mem_cons_self _ _)
      simp [sanitizeObject, sanitizedOKFields, hb, hrest, hv]

/-- The sanitizer's output always satisfies the invariant: redacted blocked
keys and no surviving PII-pattern strings, at every depth. -/
theorem sanitizedOK_sanitizeValue (pii : List String) :
    ∀ v, sanitizedOK pii (sanitizeValue pii v) = true := by
  intro v
  induction v using JValue.inductionOn with
  | hnull => rfl
  | hbool b => rfl
  | hnum n => rfl
  | hstr s => exact sanitizedOK_sanitizeString pii s
  | harr items ih =>
    simp only [sanitizeValue, sanitizedOK]
    exact sanitizedOKItems_sanitizeItems pii items ih
  | hobj fields ih =>
    simp only [sanitizeValue, sanitizedOK]
    exact sanitizedOKFields_sanitizeObject pii fields ih

/-- The value sanitizer is idempotent. -/
theorem sanitizeValue_idem (pii : List String) :
    ∀ v, sanitizeValue pii (sanitizeValue pii v) = sanitizeValue pii v := by
  intro v
  induction v using JValue.inductionOn with
  | hnull => rfl
  | hbool b => rfl
  | hnum n => rfl
  | hstr s => simp [sanitizeValue, sanitizeString_idem]
  | harr items ih =>
    simp only [sanitizeValue, sanitizeItems_eq_map, List.map_map]
    congr 1
    exact List.map_congr_left fun w hw => by simpa using ih w hw
  | hobj fields ih =>
    simp only [sanitizeValue]
    congr 1
    exact sanitizeObject_idem_of pii fields ih

/-- The header sanitizer is idempotent (its output, re-read as string-valued
headers, sanitizes to itself). -/
theorem sanitizeHeaders_idem (pii : List String) (h : List (String × HeaderValue)) :
    sanitizeHeaders pii
        ((sanitizeHeaders pii h).map fun kv => (kv.1, HeaderValue.hstr kv.2)) =
      sanitizeHeaders pii h := by
  induction h with
  | nil => rfl
  | cons kv rest ih =>
    obtain ⟨k, v⟩ := kv
    by_cases hb : isBlockedKey pii k
    · simp [sanitizeHeaders, hb, ih]
    · simp [sanitizeHeaders, hb, ih]

/- ### Lemmas about SHA-256 and the fingerprint format -/

theorem SHA256.toBytesBE_length (k n : Nat) : (SHA256.toBytesBE k n).length = k := by
  induction k generalizing n with
  | zero => rfl
  | succ k ih => simp [SHA256.toBytesBE, ih]

theorem SHA256.toBytesBE_lt (k n : Nat) : ∀ x ∈ SHA256.toBytesBE k n, x < 256 := by
  induction k generalizing n with
  | zero => intro x hx; cases hx
  | succ k ih =>
    intro x hx
    simp only [SHA256.toBytesBE, List.mem_append, List.mem_singleton] at hx
    rcases hx with hx | rfl
    · exact ih (n / 256) x hx
    · exact Nat.mod_lt n (by omega)

/-- The digest is exactly 32 bytes, whatever the message. -/
theorem SHA256.sha256_length (msg : List Nat) : (SHA256.sha256 msg).length = 32 := by
  simp [SHA256.sha256, SHA256.toBytesBE_length]

/-- Every digest byte is a byte. -/
theorem SHA256.sha256_lt (msg : List Nat) : ∀ x ∈ SHA256.sha256 msg, x < 256 := by
  intro x hx
  simp only [SHA256.sha256, List.mem_append] at hx
  rcases hx with ((((((hx | hx) | hx) | hx) | hx) | hx) | hx) | hx <;>
    exact SHA256.toBytesBE_lt 4 _ x hx

theorem SHA256.hexChar_mem : ∀ n < 16, SHA256.hexChar n ∈ SHA256.hexDigits := by
  decide

theorem SHA256.bytesToHex_length (bs : List Nat) :
    (SHA256.bytesToHex bs).length = 2 * bs.length := by
  induction bs with
  | nil => rfl
  | cons b bs ih =>
    simp only [SHA256.bytesToHex, List.flatMap_cons] at *
    simp [ih]
    omega

theorem SHA256.bytesToHex_mem (bs : List Nat) (hb : ∀ x ∈ bs, x < 256) :
    ∀ c ∈ SHA256.bytesToHex bs, c ∈ SHA256.hexDigits := by
  induction bs with
  | nil => intro c hc; cases hc
  | cons b bs ih =>
    intro c hc
    simp only [SHA256.bytesToHex, List.flatMap_cons, List.mem_append,
      List.mem_cons, List.mem_singleton, List.not_mem_nil, or_false] at hc
    have hblt : b < 256 := hb b (List.mem_cons_self _ _)
    rcases hc with (rfl | rfl) | hc
    · exact SHA256.hexChar_mem _ ((Nat.div_lt_iff_lt_mul (by omega)).mpr (by omega))
    · exact SHA256.hexChar_mem _ (Nat.mod_lt b (by omega))
    · exact ih (fun x hx => hb x (List.mem_cons_of_mem _ hx)) c hc

/-- The fingerprint string is exactly 16 characters long. -/
theorem fingerprintOfData_length (d : String) : (fingerprintOfData d).length = 16 := by
  have h1 := SHA256.sha256_length (SHA256.utf8Encode d)
  have h2 := SHA256.bytesToHex_length (SHA256.sha256 (SHA256.utf8Encode d))
  simp only [fingerprintOfData, String.length, List.length_take]
  omega

/-- Every fingerprint character is a lowercase hex digit. -/
theorem fingerprintOfData_hex (d : String) :
    ∀ c ∈ (fingerprintOfData d).data, c ∈ SHA256.hexDigits := by
  intro c hc
  have hc' : c ∈ SHA256.bytesToHex (SHA256.sha256 (SHA256.utf8Encode d)) :=
    List.mem_of_mem_take hc
  exact SHA256.bytesToHex_mem _ (SHA256.sha256_lt _) c hc'

/- ## Claim theorems -/

/-- C1: for each chunk, `sendWithRetry` behaves as follows.  A 2xx response
stops the loop with the chunk delivered.  A non-2xx status below 500 (in
particular a single 400) stops immediately with the chunk dropped, after
exactly 1 POST.  A 5xx response or a network error is retried after a delay
of `retryDelay * 2 ^ attemptIndex` ms, up to `retryAttempts` total attempts
(default 3), after which the chunk is dropped.  The routine is a total
function into `SendResult`, so it always returns normally. -/
theorem sendWithRetry_delivery_C1 :
    defaultConfig.retryAttempts = 3 ∧
    ∀ (n rd : Nat) (oracle : Nat → AttemptOutcome),
      (∀ s, oracle 0 = .response s → 200 ≤ s → s < 300 → 1 ≤ n →
        sendWithRetry n rd oracle = { posts := 1, delivered := true, delays := [] }) ∧
      (∀ s, oracle 0 = .response s → ¬(200 ≤ s ∧ s < 300) → s < 500 → 1 ≤ n →
        sendWithRetry n rd oracle = { posts := 1, delivered := false, delays := [] }) ∧
      ((∀ j, j < n → retryable (oracle j) = true) →
        sendWithRetry n rd oracle =
          { posts := n, delivered := false
            delays := (List.range (n - 1)).map fun j => rd * 2 ^ j }) ∧
      (∀ k s, (∀ j, j < k → retryable (oracle j) = true) →
        oracle k = .response s → 200 ≤ s → s < 300 → k < n →
        sendWithRetry n rd oracle =
          { posts := k + 1, delivered := true
            delays := (List.range k).map fun j => rd * 2 ^ j }) := by
  refine ⟨rfl, fun n rd oracle => ⟨?_, ?_, ?_, ?_⟩⟩
  · intro s ho h2 h3 hn
    have h := sendWithRetryFrom_success rd oracle n 0 0 s (by omega)
      (by intro j hj; omega) (by simpa using ho) h2 h3
    simpa [sendWithRetry] using h
  · intro s ho h4 h5 hn
    rcases Nat.exists_eq_succ_of_ne_zero (by omega : n ≠ 0) with ⟨m, rfl⟩
    exact sendWithRetryFrom_client_stop rd oracle m 0 s ho h4 h5
  · intro h
    have hr := sendWithRetryFrom_all_retryable rd oracle n 0
      (by intro j hj; simpa using h j hj)
    simpa [sendWithRetry] using hr
  · intro k s h ho h2 h3 hk
    have hr := sendWithRetryFrom_success rd oracle n 0 k s hk
      (by intro j hj; simpa using h j hj) (by simpa using ho) h2 h3
    simpa [sendWithRetry] using hr

/-- Witness for C1: with 3 attempts and base delay 1000ms, 500s on attempts
0 and 1 followed by a 200 means 3 POSTs, delivery, and delays 1000 and 2000;
a 400 means a single POST with the chunk dropped; a permanent 503 means
3 POSTs, drop, delays 1000 and 2000. -/
theorem sendWithRetry_delivery_C1_witness :
    sendWithRetry 3 1000 (fun i => if i < 2 then .response 500 else .response 200) =
      { posts := 3, delivered := true, delays := [1000, 2000] } ∧
    sendWithRetry 3 1000 (fun _ => .response 400) =
      { posts := 1, delivered := false, delays := [] } ∧
    sendWithRetry 3 1000 (fun _ => .response 503) =
      { posts := 3, delivered := false, delays := [1000, 2000] } := by
  refine ⟨?_, ?_, ?_⟩
  · have h := (sendWithRetry_delivery_C1.2 3 1000
        (fun i => if i < 2 then .response 500 else .response 200)).2.2.2 2 200
      (by intro j hj
          have : j = 0 ∨ j = 1 := by omega
          rcases this with rfl | rfl <;> decide)
      (by decide) (by decide) (by decide) (by decide)
    exact h.trans (by decide)
  · exact (sendWithRetry_delivery_C1.2 3 1000 (fun _ => .response 400)).2.1 400
      rfl (by decide) (by decide) (by decide)
  · have h := (sendWithRetry_delivery_C1.2 3 1000 (fun _ => .response 503)).2.2.1
      (by intro j hj; decide)
    exact h.trans (by decide)

/-- Counterexample for C2 as stated: with a flush already in flight
(`isFlushing` set) and an event in the buffer, `shutdown` disarms the timer
but its final `flush()` returns on the single-flight guard — nothing is
sent, the event appears in no POST body before shutdown returns, and it is
left in the buffer, silently discarded on process exit. -/
theorem shutdown_drains_C2_counterexample :
    (shutdown defaultConfig
        { buffer := [4], isFlushing := true, timerActive := true }
        ([] : List Nat)).1 = [] ∧
    4 ∉ (shutdown defaultConfig
        { buffer := [4], isFlushing := true, timerActive := true }
        ([] : List Nat)).1.flatten ∧
    (shutdown defaultConfig
        { buffer := [4], isFlushing := true, timerActive := true }
        ([] : List Nat)).2.buffer = [4] := by
  refine ⟨?_, ?_, ?_⟩ <;> simp [shutdown, flush]

/-- C2 (as amended): `shutdown` disarms the periodic timer and runs one
final awaited flush.  When no flush is in flight at that moment, every
buffered event appears exactly once in the concatenation of the POST bodies
the final flush sends (possibly split across chunks), and the buffer is
empty when shutdown returns.  When a flush is already in progress, the
final flush is a no-op on the single-flight guard: shutdown sends nothing
and the buffered events are left unsent. -/
theorem shutdown_drains_C2 :
    ∀ (α : Type) (cfg : Config) (s : SenderState α) (metrics : List α),
      0 < cfg.batchSize →
      (shutdown cfg s metrics).2.timerActive = false ∧
      (s.isFlushing = false →
        (shutdown cfg s metrics).2.buffer = [] ∧
        (shutdown cfg s metrics).1.flatten =
          (if s.buffer.isEmpty then []
           else s.buffer ++ if cfg.enableMetrics then metrics else []) ∧
        ∀ e ∈ s.buffer, e ∈ (shutdown cfg s metrics).1.flatten) ∧
      (s.isFlushing = true →
        (shutdown cfg s metrics).1 = [] ∧
        (shutdown cfg s metrics).2.buffer = s.buffer) := by
  intro α cfg s metrics hb
  refine ⟨?_, ?_, ?_⟩
  · by_cases hf : s.isFlushing
    · simp [shutdown, flush, hf]
    · by_cases hbuf : s.buffer.isEmpty
      · simp [shutdown, flush, hf, hbuf]
      · simp [shutdown, flush, flushBegin, flushEnd, hf, hbuf]
  · intro hf
    by_cases hbuf : s.buffer.isEmpty
    · have hnil : s.buffer = [] := by simpa [List.isEmpty_iff] using hbuf
      simp [shutdown, flush, flushBegin, flushEnd, hf, hbuf, hnil]
    · simp [shutdown, flush, flushBegin, flushEnd, hf, hbuf,
        chunkArray_flatten cfg.batchSize hb]
      intro e he
      exact Or.inl he
  · intro hf
    constructor <;> simp [shutdown, flush, hf]

/-- Witness for C2 (amended form): shutting down a quiescent sender holding
three events sends them all in one flush and clears the state; shutting
down while a flush is in flight sends nothing and leaves the buffered event
in place. -/
theorem shutdown_drains_C2_witness :
    (shutdown defaultConfig
        { buffer := [1, 2, 3], isFlushing := false, timerActive := true }
        ([] : List Nat)).2.timerActive = false ∧
    (shutdown defaultConfig
        { buffer := [1, 2, 3], isFlushing := false, timerActive := true }
        ([] : List Nat)).2.buffer = [] ∧
    (shutdown defaultConfig
        { buffer := [1, 2, 3], isFlushing := false, timerActive := true }
        ([] : List Nat)).1.flatten =
      (if ([1, 2, 3] : List Nat).isEmpty then []
       else [1, 2, 3] ++ if defaultConfig.enableMetrics then [] else []) ∧
    (∀ e ∈ ([1, 2, 3] : List Nat),
      e ∈ (shutdown defaultConfig
        { buffer := [1, 2, 3], isFlushing := false, timerActive := true }
        ([] : List Nat)).1.flatten) ∧
    (shutdown defaultConfig
        { buffer := [5], isFlushing := true, timerActive := true }
        ([] : List Nat)).1 = [] ∧
    (shutdown defaultConfig
        { buffer := [5], isFlushing := true, timerActive := true }
        ([] : List Nat)).2.buffer = [5] := by
  have h1 := shutdown_drains_C2 Nat defaultConfig
    { buffer := [1, 2, 3], isFlushing := false, timerActive := true } [] (by decide)
  have h2 := shutdown_drains_C2 Nat defaultConfig
    { buffer := [5], isFlushing := true, timerActive := true } [] (by decide)
  exact ⟨h1.1, (h1.2.1 rfl).1, (h1.2.1 rfl).2.1, (h1.2.1 rfl).2.2,
    (h2.2.2 rfl).1, (h2.2.2 rfl).2⟩

/-- C3: a flush snapshots the buffer (plus the metrics snapshot when
enabled), partitions it into consecutive chunks of `batchSize` (the last
possibly smaller, none empty), and the concatenation of the chunk bodies in
send order is the snapshot; with `batchSize = 2` and five buffered events
the flush produces exactly the three POSTs `[e₁,e₂]`, `[e₃,e₄]`, `[e₅]`. -/
theorem flush_chunks_C3 :
    ∀ (α : Type) (cfg : Config) (s : SenderState α) (metrics : List α),
      s.isFlushing = false → 0 < cfg.batchSize →
      ((flush cfg s metrics).1.flatten =
        (if s.buffer.isEmpty then []
         else s.buffer ++ if cfg.enableMetrics then metrics else [])) ∧
      (∀ c ∈ (flush cfg s metrics).1, c ≠ [] ∧ c.length ≤ cfg.batchSize) ∧
      (∀ c ∈ (flush cfg s metrics).1.dropLast, c.length = cfg.batchSize) ∧
      (∀ (e₁ e₂ e₃ e₄ e₅ : α) (t : Bool) (cfg₂ : Config), cfg₂.batchSize = 2 →
        (flush cfg₂
            { buffer := [e₁, e₂, e₃, e₄, e₅], isFlushing := false, timerActive := t }
            []).1 = [[e₁, e₂], [e₃, e₄], [e₅]]) := by
  intro α cfg s metrics hf hb
  refine ⟨?_, ?_, ?_, ?_⟩
  · by_cases hbuf : s.buffer.isEmpty
    · simp [flush, flushBegin, hf, hbuf]
    · simp [flush, flushBegin, hf, hbuf, chunkArray_flatten cfg.batchSize hb]
  · intro c hc
    by_cases hbuf : s.buffer.isEmpty
    · simp [flush, hf, hbuf] at hc
    · simp only [flush, flushBegin, hf, hbuf, Bool.false_or, if_neg Bool.false_ne_true] at hc
      exact chunkArray_mem_length cfg.batchSize hb _ c (by simpa using hc)
  · intro c hc
    by_cases hbuf : s.buffer.isEmpty
    · simp [flush, hf, hbuf] at hc
    · simp only [flush, flushBegin, hf, hbuf, Bool.false_or, if_neg Bool.false_ne_true] at hc
      exact chunkArray_dropLast_length cfg.batchSize hb _ c (by simpa using hc)
  · intro e₁ e₂ e₃ e₄ e₅ t cfg₂ hbs
    simp only [flush, flushBegin, List.isEmpty_cons, Bool.false_or, ite_self,
      List.append_nil, hbs, if_neg Bool.false_ne_true]
    exact chunkArray_five_two e₁ e₂ e₃ e₄ e₅

/-- Witness for C3: flushing five concrete events with `batchSize = 2`
yields chunks of sizes 2, 2, 1 in insertion order. -/
theorem flush_chunks_C3_witness :
    (flush { defaultConfig with batchSize := 2 }
        { buffer := [10, 20, 30, 40, 50], isFlushing := false, timerActive := true }
        ([] : List Nat)).1 = [[10, 20], [30, 40], [50]] :=
  (flush_chunks_C3 Nat { defaultConfig with batchSize := 2 }
      { buffer := [10, 20, 30, 40, 50], isFlushing := false, timerActive := true }
      [] rfl (by decide)).2.2.2 10 20 30 40 50 true _ rfl

/-- C4: `flush` is a no-op when a flush is already in flight or the buffer
is empty — it sends nothing and leaves the state untouched — and a second
`flushBegin` issued while a first one is still in flight sends nothing and
changes nothing, so two overlapping flush calls produce exactly one send
sequence. -/
theorem flush_single_flight_C4 :
    ∀ (α : Type) (cfg : Config) (s : SenderState α) (m m' : List α),
      (s.isFlushing = true →
        flush cfg s m = ([], s) ∧ flushBegin cfg s m = ([], s)) ∧
      (s.buffer = [] →
        flush cfg s m = ([], s) ∧ flushBegin cfg s m = ([], s)) ∧
      (s.isFlushing = false → s.buffer ≠ [] →
        flushBegin cfg (flushBegin cfg s m).2 m' =
          ([], (flushBegin cfg s m).2)) := by
  intro α cfg s m m'
  refine ⟨fun hf => ⟨?_, ?_⟩, fun hb => ⟨?_, ?_⟩, fun hf hb => ?_⟩
  · simp [flush, hf]
  · simp [flushBegin, hf]
  · simp [flush, hb]
  · simp [flushBegin, hb]
  · have hbuf : s.buffer.isEmpty = false := by
      simpa [List.isEmpty_iff] using hb
    simp [flushBegin, hf, hbuf]

/-- Witness for C4: a concrete overlapping pair of flush calls; the second
call is a no-op in both the in-flight and the empty-buffer situations. -/
theorem flush_single_flight_C4_witness :
    (flush defaultConfig { buffer := [1], isFlushing := true, timerActive := true }
        ([] : List Nat) =
      ([], { buffer := [1], isFlushing := true, timerActive := true }) ∧
     flushBegin defaultConfig { buffer := [1], isFlushing := true, timerActive := true }
        ([] : List Nat) =
      ([], { buffer := [1], isFlushing := true, timerActive := true })) ∧
    flushBegin defaultConfig
        (flushBegin defaultConfig
          { buffer := [1], isFlushing := false, timerActive := true }
          ([] : List Nat)).2 [] =
      ([], (flushBegin defaultConfig
          { buffer := [1], isFlushing := false, timerActive := true }
          ([] : List Nat)).2) :=
  ⟨(flush_single_flight_C4 Nat defaultConfig
      { buffer := [1], isFlushing := true, timerActive := true } [] []).1 rfl,
   (flush_single_flight_C4 Nat defaultConfig
      { buffer := [1], isFlushing := false, timerActive := true } [] []).2.2 rfl
      (by decide)⟩

/-- C5 (as amended): `addEvent` is a pure state transition that appends the
event and never performs network I/O itself.  Below the cap it only
appends.  At or above the cap it first triggers an immediate flush attempt
without waiting for the periodic timer: when no flush is in flight that
attempt drains the buffer, so the buffer afterwards holds just the new
event; when a flush is already in flight the attempt is a no-op and the
event is still appended, so the buffer can exceed the cap. -/
theorem addEvent_capacity_C5 :
    ∀ (α : Type) (cfg : Config) (s : SenderState α) (e : α) (m : List α),
      (s.buffer.length < cfg.maxBufferSize →
        addEvent cfg s e m = ([], { s with buffer := s.buffer ++ [e] })) ∧
      (cfg.maxBufferSize ≤ s.buffer.length → s.isFlushing = false →
        0 < cfg.maxBufferSize → 0 < cfg.batchSize →
        (addEvent cfg s e m).2.buffer = [e] ∧
        (addEvent cfg s e m).1.flatten =
          s.buffer ++ if cfg.enableMetrics then m else []) ∧
      (cfg.maxBufferSize ≤ s.buffer.length → s.isFlushing = true →
        (addEvent cfg s e m).1 = [] ∧
        (addEvent cfg s e m).2.buffer = s.buffer ++ [e]) := by
  intro α cfg s e m
  refine ⟨fun hlt => ?_, fun hge hf hcap hb => ?_, fun hge hf => ?_⟩
  · rw [addEvent, if_neg (by omega)]
  · have hbuf : s.buffer.isEmpty = false := by
      rcases hbe : s.buffer with _ | ⟨a, l⟩
      · rw [hbe] at hge
        simp at hge
        omega
      · rfl
    rw [addEvent, if_pos hge]
    constructor
    · simp [flush, flushBegin, flushEnd, hf, hbuf]
    · simp [flush, flushBegin, flushEnd, hf, hbuf,
        chunkArray_flatten cfg.batchSize hb]
  · rw [addEvent, if_pos hge]
    constructor
    · simp [flush, hf]
    · simp [flush, hf]

/-- Counterexample for C5 as stated: with the cap at 2, a full buffer and a
flush already in flight, `addEvent` leaves the buffer with 3 entries — the
"bounded by the cap" part of the claim fails while a flush is in
progress. -/
theorem addEvent_capacity_C5_counterexample :
    ({ maxBufferSize := 2, batchSize := 100, retryAttempts := 3, retryDelay := 1000,
       enableMetrics := false } : Config).maxBufferSize <
      (addEvent
        { maxBufferSize := 2, batchSize := 100, retryAttempts := 3, retryDelay := 1000,
          enableMetrics := false }
        { buffer := [1, 2], isFlushing := true, timerActive := true } (3 : Nat)
        []).2.buffer.length := by
  rw [addEvent, if_pos (by decide)]
  simp [flush]

/-- Witness for C5 (amended form): below the cap `addEvent` only appends;
at the cap with no flush in flight it drains and keeps just the new event;
at the cap with a flush in flight it appends past the cap. -/
theorem addEvent_capacity_C5_witness :
    addEvent defaultConfig { buffer := [1], isFlushing := false, timerActive := true }
        (2 : Nat) [] =
      ([], { buffer := [1, 2], isFlushing := false, timerActive := true }) ∧
    (addEvent { defaultConfig with maxBufferSize := 2 }
        { buffer := [1, 2], isFlushing := false, timerActive := true } (3 : Nat)
        []).2.buffer = [3] ∧
    (addEvent { defaultConfig with maxBufferSize := 2 }
        { buffer := [1, 2], isFlushing := true, timerActive := true } (3 : Nat)
        []).2.buffer = [1, 2, 3] :=
  ⟨(addEvent_capacity_C5 Nat defaultConfig
      { buffer := [1], isFlushing := false, timerActive := true } 2 []).1 (by decide),
   ((addEvent_capacity_C5 Nat { defaultConfig with maxBufferSize := 2 }
      { buffer := [1, 2], isFlushing := false, timerActive := true } 3 []).2.1
      (by decide) rfl (by decide) (by decide)).1,
   ((addEvent_capacity_C5 Nat { defaultConfig with maxBufferSize := 2 }
      { buffer := [1, 2], isFlushing := true, timerActive := true } 3 []).2.2
      (by decide) rfl).2⟩

/-- C9: the breadcrumb store never exceeds `maxBreadcrumbs = 100` entries:
each `addBreadcrumb` preserves the cap, folding any sequence of
breadcrumbs into an empty store keeps exactly the most recent 100 in
insertion order, and in particular adding 150 breadcrumbs leaves exactly
the last 100. -/
theorem breadcrumb_cap_C9 :
    maxBreadcrumbs = 100 ∧
    (∀ (α : Type) (bs : List α) (b : α), bs.length ≤ maxBreadcrumbs →
      (addBreadcrumb bs b).length ≤ maxBreadcrumbs) ∧
    (∀ (α : Type) (es : List α),
      List.foldl addBreadcrumb [] es = es.drop (es.length - maxBreadcrumbs)) ∧
    (∀ (α : Type) (es : List α), es.length = 150 →
      List.foldl addBreadcrumb [] es = es.drop 50) := by
  refine ⟨rfl, ?_, fun α es => addBreadcrumb_foldl es, ?_⟩
  · intro α bs b hb
    unfold addBreadcrumb
    by_cases h : maxBreadcrumbs < (bs ++ [b]).length
    · rw [if_pos h]
      simp only [List.length_drop, List.length_append, List.length_singleton]
      omega
    · rw [if_neg h]
      omega
  · intro α es h150
    rw [addBreadcrumb_foldl es, h150]
    rfl

/-- C6: `generateFingerprint` is a pure function, so repeated calls on the
same inputs (including empty strings and an omitted endpoint) give the
identical output, and the output is always exactly 16 characters, each a
lowercase hexadecimal digit — the SHA-256 hex digest truncated to its first
16 characters.  (That distinct inputs collide only with overwhelmingly
small probability is a property of SHA-256 itself and is outside the
reach of the formal model.) -/
theorem fingerprint_format_C6 :
    ∀ (t s : String) (e : Option String),
      generateFingerprint t s e = generateFingerprint t s e ∧
      (generateFingerprint t s e).length = 16 ∧
      ((generateFingerprint t s e).data.all fun c =>
        decide (c ∈ SHA256.hexDigits)) = true := by
  intro t s e
  refine ⟨rfl, fingerprintOfData_length _, ?_⟩
  rw [List.all_eq_true]
  intro c hc
  rw [decide_eq_true_eq]
  exact fingerprintOfData_hex _ c hc

/-- C10: because the fingerprint hashes the colon-joined data string, an
omitted endpoint and an empty-string endpoint are indistinguishable, and
triples whose components contain a colon can collide deterministically:
`("a:b", "c")` and `("a", "b:c")` hash the same data `"a:b:c:"`. -/
theorem fingerprint_collisions_C10 :
    (∀ t s : String,
      generateFingerprint t s none = generateFingerprint t s (some "")) ∧
    generateFingerprint "a:b" "c" none = generateFingerprint "a" "b:c" none := by
  constructor
  · intro t s
    rfl
  · show fingerprintOfData ("a:b" ++ ":" ++ "c" ++ ":" ++ ((none : Option String).getD ""))
        = fingerprintOfData ("a" ++ ":" ++ "b:c" ++ ":" ++ ((none : Option String).getD ""))
    exact congrArg fingerprintOfData (by decide)

/-- C7: `sanitizeObject` keeps every key and replaces the value of every
blocked key (case-insensitive substring match against the blocklist) with
the literal `"[REDACTED]"` regardless of the value's type; every string
value matching the email, grouped-card-number, or SSN pattern becomes the
corresponding typed marker even under an unblocked key; null, boolean and
number values pass through; the output satisfies the redaction invariant at
every depth, arrays included; and the concrete example
`{password: "p", user: "u"}` with blocklist `["password"]` comes out as
`{password: "[REDACTED]", user: "u"}`. -/
theorem sanitizer_coverage_C7 :
    ∀ (pii : List String),
      (∀ fields, sanitizeObject pii fields = fields.map fun kv =>
        (kv.1, if isBlockedKey pii kv.1 then JValue.vstr "[REDACTED]"
               else sanitizeValue pii kv.2)) ∧
      (∀ s, emailTest s = true →
        sanitizeValue pii (.vstr s) = .vstr "[REDACTED_EMAIL]") ∧
      (∀ s, emailTest s = false → cardTest s = true →
        sanitizeValue pii (.vstr s) = .vstr "[REDACTED_CARD]") ∧
      (∀ s, emailTest s = false → cardTest s = false → ssnTest s = true →
        sanitizeValue pii (.vstr s) = .vstr "[REDACTED_SSN]") ∧
      (sanitizeValue pii .vnull = .vnull ∧
        (∀ b, sanitizeValue pii (.vbool b) = .vbool b) ∧
        (∀ n, sanitizeValue pii (.vnum n) = .vnum n)) ∧
      (∀ v, sanitizedOK pii (sanitizeValue pii v) = true) ∧
      sanitizeObject ["password"] [("password", .vstr "p"), ("user", .vstr "u")] =
        [("password", JValue.vstr "[REDACTED]"), ("user", JValue.vstr "u")] := by
  intro pii
  refine ⟨sanitizeObject_eq_map pii, ?_, ?_, ?_, ⟨rfl, fun b => rfl, fun n => rfl⟩,
    sanitizedOK_sanitizeValue pii, rfl⟩
  · intro s h1
    simp [sanitizeValue, sanitizeString, h1]
  · intro s h1 h2
    simp [sanitizeValue, sanitizeString, h1, h2]
  · intro s h1 h2 h3
    simp [sanitizeValue, sanitizeString, h1, h2, h3]

/-- Witness for C7: an email, a grouped card number and an SSN are each
replaced by their typed marker. -/
theorem sanitizer_coverage_C7_witness :
    sanitizeValue [] (.vstr "user@example.com") = .vstr "[REDACTED_EMAIL]" ∧
    sanitizeValue [] (.vstr "4111 1111 1111 1111") = .vstr "[REDACTED_CARD]" ∧
    sanitizeValue [] (.vstr "123-45-6789") = .vstr "[REDACTED_SSN]" :=
  ⟨(sanitizer_coverage_C7 []).2.1 "user@example.com" (by decide),
   (sanitizer_coverage_C7 []).2.2.1 "4111 1111 1111 1111" (by decide) (by decide),
   (sanitizer_coverage_C7 []).2.2.2.1 "123-45-6789" (by decide) (by decide) (by decide)⟩

/-- C8: sanitization is idempotent for every value and every blocklist —
the redaction markers are fixed points — and likewise for the header
sanitizer when its string output is fed back in. -/
theorem sanitizer_idempotent_C8 :
    ∀ (pii : List String),
      (∀ v, sanitizeValue pii (sanitizeValue pii v) = sanitizeValue pii v) ∧
      (∀ fields, sanitizeObject pii (sanitizeObject pii fields) =
        sanitizeObject pii fields) ∧
      (∀ h, sanitizeHeaders pii
          ((sanitizeHeaders pii h).map fun kv => (kv.1, HeaderValue.hstr kv.2)) =
        sanitizeHeaders pii h) := by
  intro pii
  refine ⟨sanitizeValue_idem pii, ?_, sanitizeHeaders_idem pii⟩
  intro fields
  exact sanitizeObject_idem_of pii fields fun kv _ => sanitizeValue_idem pii kv.2

/-- Witness for C9: adding the 150 breadcrumbs `0..149` to an empty store
leaves exactly `50..149`, and one more add on a full store stays within the
cap. -/
theorem breadcrumb_cap_C9_witness :
    List.foldl addBreadcrumb [] (List.range 150) = (List.range 150).drop 50 ∧
    (addBreadcrumb (List.range 100) 7).length ≤ maxBreadcrumbs :=
  ⟨breadcrumb_cap_C9.2.2.2 Nat (List.range 150) (by simp),
   breadcrumb_cap_C9.2.1 Nat (List.range 100) 7 (by simp [maxBreadcrumbs])⟩

end RootSense
